import Mathlib

/-!
Shallow embedding of the SQP core of the `MultipleShootingSolver`
(`src/unnamed/part_002`, file `MultipleShootingSolver.cpp` of the ocs2
repository) and proofs about it.

Conventions of the embedding:
* C++ `scalar_t` (double) is modelled as the real numbers `ℝ`; `std::sqrt`
  is `Real.sqrt`.
* `vector_t` is `List ℝ`, `matrix_t` is `List (List ℝ)`, and
  `vector_array_t` / `matrix_array_t` are lists thereof.  Eigen
  element-wise operations become `List.zipWith` operations.
* External collaborators that are not part of the source under
  verification (the transcription helpers `multiple_shooting::compute*`,
  the HPIPM back-end, `LinearInterpolation::interpolate`, the per-node
  helpers `getInterpolationTime` and friends) are passed in as explicit
  function parameters, so every theorem quantifies over their behaviour.
* The worker-pool parallel accumulation (`runParallel`) of per-stage
  `PerformanceIndex` contributions is flattened into a deterministic fold
  over the stage index; stage contributions are additive and write to
  disjoint slots, so the fold is the denotation of the parallel sum.
-/

namespace OCS2

noncomputable section

open scoped Classical

/-! ## Vectors and matrices as lists -/

/-- Dense real vector (`vector_t`). -/
abbrev Vec := List ℝ

/-- Dense real matrix, stored by rows (`matrix_t`). -/
abbrev Mat := List (List ℝ)

/-- Element-wise vector addition. -/
def vadd (a b : Vec) : Vec := List.zipWith (fun s t => s + t) a b

/-- Element-wise vector subtraction. -/
def vsub (a b : Vec) : Vec := List.zipWith (fun s t => s - t) a b

/-- Scalar multiple of a vector. -/
def vsmul (c : ℝ) (v : Vec) : Vec := v.map (fun t => c * t)

/-- Inner product of two vectors. -/
def dot (a b : Vec) : ℝ := (List.zipWith (fun s t => s * t) a b).sum

/-- Squared Euclidean norm of a vector (Eigen `squaredNorm`). -/
def squaredNorm (v : Vec) : ℝ := (v.map (fun t => t * t)).sum

/-- Matrix-vector product. -/
def matvec (A : Mat) (v : Vec) : Vec := A.map (fun row => dot row v)

/-- Matrix addition. -/
def matadd (A B : Mat) : Mat := List.zipWith vadd A B

/-- Column `j` of a row-major matrix (out-of-range entries read as 0). -/
def colD (B : Mat) (j : ℕ) : Vec := B.map (fun row => row.getD j 0)

/-- Matrix-matrix product. -/
def matmul (A B : Mat) : Mat :=
  A.map (fun row => (List.range (B.headD []).length).map (fun j => dot row (colD B j)))

/-! ## Data model -/

/-- Kind of a grid node (`AnnotatedTime::Event`); the only value the
solver source inspects is `PreEvent`, everything else behaves as an
interior node. -/
inductive EventType where
  | Interior : EventType
  | PreEvent : EventType
deriving DecidableEq

/-- One annotated node of the time discretization. -/
structure AnnotatedTime where
  time : ℝ
  event : EventType

instance : Inhabited AnnotatedTime := ⟨⟨0, EventType.Interior⟩⟩

/-- Performance bookkeeping accumulated over stages and workers
(`PerformanceIndex`), with the fields the solver source reads. -/
structure PerformanceIndex where
  totalCost : ℝ := 0
  stateEqConstraintISE : ℝ := 0
  stateInputEqConstraintISE : ℝ := 0
  inequalityConstraintISE : ℝ := 0
  inequalityConstraintPenalty : ℝ := 0
  merit : ℝ := 0

instance : Inhabited PerformanceIndex := ⟨{}⟩

/-- Field-wise sum of two performance indices (C++ operator `+=`). -/
def PerformanceIndex.add (p q : PerformanceIndex) : PerformanceIndex where
  totalCost := p.totalCost + q.totalCost
  stateEqConstraintISE := p.stateEqConstraintISE + q.stateEqConstraintISE
  stateInputEqConstraintISE := p.stateInputEqConstraintISE + q.stateInputEqConstraintISE
  inequalityConstraintISE := p.inequalityConstraintISE + q.inequalityConstraintISE
  inequalityConstraintPenalty := p.inequalityConstraintPenalty + q.inequalityConstraintPenalty
  merit := p.merit + q.merit

/-- Affine function approximation `f + dfdx·δx + dfdu·δu`
(`VectorFunctionLinearApproximation`).  The zero-row convention
`f = []` marks an absent constraint projection. -/
structure VectorFunctionLinearApproximation where
  f : Vec := []
  dfdx : Mat := []
  dfdu : Mat := []

instance : Inhabited VectorFunctionLinearApproximation := ⟨{}⟩

/-- Subset of the solver settings the modelled functions read. -/
structure Settings where
  alpha_decay : ℝ
  alpha_min : ℝ
  gamma_c : ℝ
  g_max : ℝ
  g_min : ℝ
  costTol : ℝ
  deltaTol : ℝ
  projectStateInputEqualityConstraints : Bool
  useFeedbackPolicy : Bool
  sqpIteration : ℕ

/-! ## Constraint violation and trajectory norm (part_002 lines 475-513) -/

/-- Total constraint violation θ of a performance index: the lambda
`constraintViolation` inside `takeStep`. -/
def constraintViolation (p : PerformanceIndex) : ℝ :=
  Real.sqrt (p.stateEqConstraintISE + p.stateInputEqConstraintISE + p.inequalityConstraintISE)

/-- Stacked 2-norm of a trajectory (`MultipleShootingSolver::trajectoryNorm`). -/
def trajectoryNorm (v : List Vec) : ℝ :=
  Real.sqrt ((v.map squaredNorm).sum)

/-- Acceptance test of one line-search trial: the `stepAccepted` lambda in
`takeStep` (part_002 lines 537-548).  `baselineConstraintViolation` is the
value captured by the lambda, computed once from the baseline. -/
def stepAccepted (s : Settings) (baseline : PerformanceIndex)
    (baselineConstraintViolation : ℝ) (performanceNew : PerformanceIndex) : Prop :=
  if constraintViolation performanceNew > s.g_max then
    False
  else if constraintViolation performanceNew < s.g_min then
    performanceNew.merit < baseline.merit
  else
    performanceNew.merit < baseline.merit - s.gamma_c * baselineConstraintViolation ∨
      constraintViolation performanceNew < (1 - s.gamma_c) * baselineConstraintViolation

/-! ## The line search `takeStep` (part_002 lines 483-578) -/

/-- Inputs captured by one `takeStep` call: the settings, the
performance evaluation `computePerformance(timeDiscretization, initState,
·, ·)` with its first two arguments fixed, the baseline performance, the
QP step `(dx, du)` and the current trajectories `(x, u)`. -/
structure LineSearchProblem where
  s : Settings
  computePerf : List Vec → List Vec → PerformanceIndex
  baseline : PerformanceIndex
  dx : List Vec
  du : List Vec
  x : List Vec
  u : List Vec

/-- Result of `takeStep`: the returned convergence flag and the final
trajectories held in the caller's `x` and `u`. -/
structure StepResult where
  converged : Prop
  x : List Vec
  u : List Vec

/-- Trial state update `xNew[i] = x[i] + alpha * dx[i]` (part_002
lines 529-531). -/
def newState (alpha : ℝ) (x dx : List Vec) : List Vec :=
  List.zipWith (fun xi dxi => vadd xi (vsmul alpha dxi)) x dx

/-- Trial input update (part_002 lines 524-528): `uNew[i] = u[i] +
alpha * du[i]` where an input exists; at stages with an empty `du[i]`
(event nodes) the entry keeps the default-constructed empty vector. -/
def newInput (alpha : ℝ) (u du : List Vec) : List Vec :=
  List.zipWith (fun ui dui => if 0 < dui.length then vadd ui (vsmul alpha dui) else []) u du

/-- Body of the do-while line-search loop of `takeStep` (part_002
lines 519-578), fuelled to keep the recursion structural; `none` means
the fuel ran out before the C++ loop would have exited.  On acceptance
the trial trajectories are committed and the returned flag is
`stepSizeBelowTol || improvementBelowTol`; on rejection with small step
norms the loop returns converged with the trajectories untouched;
otherwise `alpha` decays and the loop continues while it stays above
`alpha_min`. -/
def takeStepLoop (P : LineSearchProblem) (baselineConstraintViolation deltaXnorm deltaUnorm : ℝ) :
    ℕ → ℝ → Option StepResult
  | 0, _ => none
  | fuel + 1, alpha =>
    let xNew := newState alpha P.x P.dx
    let uNew := newInput alpha P.u P.du
    let performanceNew := P.computePerf xNew uNew
    let newConstraintViolation := constraintViolation performanceNew
    let stepSizeBelowTol : Prop :=
      alpha * deltaUnorm < P.s.deltaTol ∧ alpha * deltaXnorm < P.s.deltaTol
    if stepAccepted P.s P.baseline baselineConstraintViolation performanceNew then
      some { converged := stepSizeBelowTol ∨
               (|P.baseline.merit - performanceNew.merit| < P.s.costTol ∧
                 newConstraintViolation < P.s.g_min),
             x := xNew, u := uNew }
    else if stepSizeBelowTol then
      some { converged := True, x := P.x, u := P.u }
    else if alpha * P.s.alpha_decay > P.s.alpha_min then
      takeStepLoop P baselineConstraintViolation deltaXnorm deltaUnorm fuel (alpha * P.s.alpha_decay)
    else
      some { converged := True, x := P.x, u := P.u }

/-- The full `takeStep`: the loop started at `alpha = 1` with the
captured baseline violation and update norms. -/
def takeStep (P : LineSearchProblem) (fuel : ℕ) : Option StepResult :=
  takeStepLoop P (constraintViolation P.baseline) (trajectoryNorm P.dx) (trajectoryNorm P.du) fuel 1

/-- Step size tried at the k-th line-search trial (alpha starts at 1 and
is multiplied by `alpha_decay` after every rejection). -/
def trialAlpha (s : Settings) (k : ℕ) : ℝ := s.alpha_decay ^ k

/-- State trajectory formed at the k-th trial. -/
def trialState (P : LineSearchProblem) (k : ℕ) : List Vec :=
  newState (trialAlpha P.s k) P.x P.dx

/-- Input trajectory formed at the k-th trial. -/
def trialInput (P : LineSearchProblem) (k : ℕ) : List Vec :=
  newInput (trialAlpha P.s k) P.u P.du

/-- Performance recomputed at the k-th trial. -/
def trialPerformance (P : LineSearchProblem) (k : ℕ) : PerformanceIndex :=
  P.computePerf (trialState P k) (trialInput P k)

/-- The k-th trial passes the filter acceptance test. -/
def trialAccepted (P : LineSearchProblem) (k : ℕ) : Prop :=
  stepAccepted P.s P.baseline (constraintViolation P.baseline) (trialPerformance P k)

/-- Both scaled step norms at the k-th trial are below `deltaTol`. -/
def trialBelowTol (P : LineSearchProblem) (k : ℕ) : Prop :=
  trialAlpha P.s k * trajectoryNorm P.du < P.s.deltaTol ∧
    trialAlpha P.s k * trajectoryNorm P.dx < P.s.deltaTol

/-- The merit improvement at the k-th trial is below `costTol` while the
new violation is below `g_min` (the `improvementBelowTol` flag). -/
def trialImprovement (P : LineSearchProblem) (k : ℕ) : Prop :=
  |P.baseline.merit - (trialPerformance P k).merit| < P.s.costTol ∧
    constraintViolation (trialPerformance P k) < P.s.g_min

/-- The loop leaves trial k for trial k+1: the trial is rejected, the
step norms are not yet small, and the decayed step size stays above
`alpha_min`. -/
def trialContinues (P : LineSearchProblem) (k : ℕ) : Prop :=
  ¬ trialAccepted P k ∧ ¬ trialBelowTol P k ∧ trialAlpha P.s (k + 1) > P.s.alpha_min

/-- Unfolding equation for one pass through the line-search loop body. -/
theorem takeStepLoop_succ (P : LineSearchProblem) (bv dxn dun : ℝ) (fuel : ℕ) (alpha : ℝ) :
    takeStepLoop P bv dxn dun (fuel + 1) alpha =
      if stepAccepted P.s P.baseline bv
          (P.computePerf (newState alpha P.x P.dx) (newInput alpha P.u P.du)) then
        some { converged :=
                 (alpha * dun < P.s.deltaTol ∧ alpha * dxn < P.s.deltaTol) ∨
                   (|P.baseline.merit -
                       (P.computePerf (newState alpha P.x P.dx) (newInput alpha P.u P.du)).merit| <
                       P.s.costTol ∧
                     constraintViolation
                         (P.computePerf (newState alpha P.x P.dx) (newInput alpha P.u P.du)) <
                       P.s.g_min),
               x := newState alpha P.x P.dx, u := newInput alpha P.u P.du }
      else if alpha * dun < P.s.deltaTol ∧ alpha * dxn < P.s.deltaTol then
        some { converged := True, x := P.x, u := P.u }
      else if alpha * P.s.alpha_decay > P.s.alpha_min then
        takeStepLoop P bv dxn dun fuel (alpha * P.s.alpha_decay)
      else
        some { converged := True, x := P.x, u := P.u } := rfl

/-- Step sizes of consecutive trials are related by one decay factor. -/
theorem trialAlpha_succ (s : Settings) (m : ℕ) :
    trialAlpha s m * s.alpha_decay = trialAlpha s (m + 1) := by
  simp [trialAlpha, pow_succ]

/-- Characterization of the line-search loop, started at the m-th trial
step size, in terms of the indexed trials: if every trial before `m + k`
continues, the loop's outcome is decided at trial `m + k` according to
the acceptance test, the step-norm tolerance and the `alpha_min` cutoff. -/
theorem takeStepLoop_trials (P : LineSearchProblem) :
    ∀ (k fuel m : ℕ), k < fuel →
      (∀ j, j < k → trialContinues P (m + j)) →
      ((trialAccepted P (m + k) →
          takeStepLoop P (constraintViolation P.baseline) (trajectoryNorm P.dx)
              (trajectoryNorm P.du) fuel (trialAlpha P.s m) =
            some { converged := trialBelowTol P (m + k) ∨ trialImprovement P (m + k),
                   x := trialState P (m + k), u := trialInput P (m + k) }) ∧
       (¬ trialAccepted P (m + k) → trialBelowTol P (m + k) →
          takeStepLoop P (constraintViolation P.baseline) (trajectoryNorm P.dx)
              (trajectoryNorm P.du) fuel (trialAlpha P.s m) =
            some { converged := True, x := P.x, u := P.u }) ∧
       (¬ trialAccepted P (m + k) → ¬ trialBelowTol P (m + k) →
          trialAlpha P.s (m + k + 1) ≤ P.s.alpha_min →
          takeStepLoop P (constraintViolation P.baseline) (trajectoryNorm P.dx)
              (trajectoryNorm P.du) fuel (trialAlpha P.s m) =
            some { converged := True, x := P.x, u := P.u })) := by
  intro k
  induction k with
  | zero =>
    intro fuel m hfuel _
    obtain ⟨f, rfl⟩ : ∃ f, fuel = f + 1 := ⟨fuel - 1, by omega⟩
    rw [takeStepLoop_succ]
    refine ⟨fun hacc => ?_, fun hacc hbelow => ?_, fun hacc hbelow hstop => ?_⟩
    · rw [if_pos (show stepAccepted P.s P.baseline (constraintViolation P.baseline) _ from
        by simpa [trialAccepted, trialPerformance, trialState, trialInput] using hacc)]
      rfl
    · rw [if_neg (show ¬ stepAccepted P.s P.baseline (constraintViolation P.baseline) _ from
          by simpa [trialAccepted, trialPerformance, trialState, trialInput] using hacc),
        if_pos (by simpa [trialBelowTol] using hbelow)]
    · rw [if_neg (show ¬ stepAccepted P.s P.baseline (constraintViolation P.baseline) _ from
          by simpa [trialAccepted, trialPerformance, trialState, trialInput] using hacc),
        if_neg (by simpa [trialBelowTol] using hbelow),
        if_neg (by rw [trialAlpha_succ]; exact not_lt.mpr (by simpa using hstop))]
  | succ k ih =>
    intro fuel m hfuel hcont
    obtain ⟨f, rfl⟩ : ∃ f, fuel = f + 1 := ⟨fuel - 1, by omega⟩
    obtain ⟨hacc0, hbelow0, hgt0⟩ := hcont 0 (Nat.succ_pos k)
    rw [takeStepLoop_succ,
      if_neg (by simpa [trialAccepted, trialPerformance, trialState, trialInput] using hacc0),
      if_neg (by simpa [trialBelowTol] using hbelow0),
      if_pos (by rw [trialAlpha_succ]; simpa using hgt0), trialAlpha_succ]
    have hshift : ∀ j, j < k → trialContinues P (m + 1 + j) := by
      intro j hj
      have := hcont (j + 1) (by omega)
      simpa [Nat.add_assoc, Nat.add_comm 1 j] using this
    have := ih f (m + 1) (by omega) hshift
    simpa [Nat.add_assoc, Nat.add_comm 1 k] using this

/-- Claim C2: `takeStep` commits the trial trajectories on acceptance and
returns convergence exactly when the scaled step norms are below
`deltaTol` or the merit improvement is below `costTol` with violation
below `g_min`; a rejected trial with small step norms converges with the
trajectories untouched; otherwise alpha decays while it stays above
`alpha_min`, and exhausting `alpha_min` without acceptance converges
with the trajectories untouched. -/
theorem takeStep_linesearch (P : LineSearchProblem) (k fuel : ℕ) (hfuel : k < fuel)
    (hcont : ∀ j, j < k → trialContinues P j) :
    (trialAccepted P k →
        takeStep P fuel =
          some { converged := trialBelowTol P k ∨ trialImprovement P k,
                 x := trialState P k, u := trialInput P k }) ∧
    (¬ trialAccepted P k → trialBelowTol P k →
        takeStep P fuel = some { converged := True, x := P.x, u := P.u }) ∧
    (¬ trialAccepted P k → ¬ trialBelowTol P k → trialAlpha P.s (k + 1) ≤ P.s.alpha_min →
        takeStep P fuel = some { converged := True, x := P.x, u := P.u }) := by
  have h := takeStepLoop_trials P k fuel 0 hfuel (by simpa using hcont)
  have h1 : trialAlpha P.s 0 = 1 := pow_zero _
  rw [takeStep, ← h1]
  simpa using h

/-- Intermediate frame property of the line-search loop: any result
either returns the input trajectories or commits the trial formed at an
accepted step size. -/
theorem takeStepLoop_frame (P : LineSearchProblem) (bv dxn dun : ℝ) :
    ∀ (fuel : ℕ) (alpha : ℝ) (r : StepResult),
      takeStepLoop P bv dxn dun fuel alpha = some r →
      (r.x = P.x ∧ r.u = P.u) ∨
        ∃ b, stepAccepted P.s P.baseline bv
              (P.computePerf (newState b P.x P.dx) (newInput b P.u P.du)) ∧
            r.x = newState b P.x P.dx ∧ r.u = newInput b P.u P.du := by
  intro fuel
  induction fuel with
  | zero =>
    intro alpha r h
    simp [takeStepLoop] at h
  | succ f ih =>
    intro alpha r h
    rw [takeStepLoop_succ] at h
    by_cases hacc : stepAccepted P.s P.baseline bv
        (P.computePerf (newState alpha P.x P.dx) (newInput alpha P.u P.du))
    · rw [if_pos hacc] at h
      obtain rfl := (Option.some_inj.mp h).symm
      exact Or.inr ⟨alpha, hacc, rfl, rfl⟩
    · rw [if_neg hacc] at h
      by_cases hbel : alpha * dun < P.s.deltaTol ∧ alpha * dxn < P.s.deltaTol
      · rw [if_pos hbel] at h
        obtain rfl := (Option.some_inj.mp h).symm
        exact Or.inl ⟨rfl, rfl⟩
      · rw [if_neg hbel] at h
        by_cases hgt : alpha * P.s.alpha_decay > P.s.alpha_min
        · rw [if_pos hgt] at h
          exact ih _ r h
        · rw [if_neg hgt] at h
          obtain rfl := (Option.some_inj.mp h).symm
          exact Or.inl ⟨rfl, rfl⟩

/-- Claim C10: `takeStep` either returns the entry trajectories
unchanged, or returns trial trajectories formed at a step size whose
trial passed the acceptance test; so without any acceptance `x` and `u`
are exactly the entry values. -/
theorem takeStep_frame (P : LineSearchProblem) (fuel : ℕ) (r : StepResult)
    (h : takeStep P fuel = some r) :
    (r.x = P.x ∧ r.u = P.u) ∨
      ∃ alpha, stepAccepted P.s P.baseline (constraintViolation P.baseline)
            (P.computePerf (newState alpha P.x P.dx) (newInput alpha P.u P.du)) ∧
          r.x = newState alpha P.x P.dx ∧ r.u = newInput alpha P.u P.du :=
  takeStepLoop_frame P (constraintViolation P.baseline) (trajectoryNorm P.dx)
    (trajectoryNorm P.du) fuel 1 r h

/-- Acceptance rule exactly as the specification (section 4.E step 3)
words it, for comparison with `stepAccepted`: accept iff
(a) θ ≤ g_min and the merit decreases, or (b) g_min < θ ≤ g_max and
either the merit decreases by γ_c·θ(baseline) or θ drops below
(1 − γ_c)·θ(baseline). -/
def specAccept (s : Settings) (baseline performanceNew : PerformanceIndex) : Prop :=
  (constraintViolation performanceNew ≤ s.g_min ∧ performanceNew.merit < baseline.merit) ∨
    (s.g_min < constraintViolation performanceNew ∧ constraintViolation performanceNew ≤ s.g_max ∧
      (performanceNew.merit < baseline.merit - s.gamma_c * constraintViolation baseline ∨
        constraintViolation performanceNew < (1 - s.gamma_c) * constraintViolation baseline))

/-! ## Concrete evaluation data for the line search -/

/-- Settings used for the concrete line-search evaluations below. -/
def cSettings : Settings where
  alpha_decay := 1/2
  alpha_min := 1/16
  gamma_c := 1/2
  g_max := 2
  g_min := 1
  costTol := 1/1000
  deltaTol := 1/1000
  projectStateInputEqualityConstraints := false
  useFeedbackPolicy := false
  sqpIteration := 10

/-- Baseline performance with merit 1 and constraint violation θ = 1. -/
def cBaseline : PerformanceIndex where
  totalCost := 1
  stateEqConstraintISE := 1
  stateInputEqConstraintISE := 0
  inequalityConstraintISE := 0
  inequalityConstraintPenalty := 0
  merit := 1

/-- Trial performance with merit 3/4 and constraint violation θ = 1. -/
def cTrial : PerformanceIndex where
  totalCost := 3/4
  stateEqConstraintISE := 1
  stateInputEqConstraintISE := 0
  inequalityConstraintISE := 0
  inequalityConstraintPenalty := 0
  merit := 3/4

/-- Trial performance with constraint violation θ = 3. -/
def cHigh : PerformanceIndex where
  totalCost := 0
  stateEqConstraintISE := 9
  stateInputEqConstraintISE := 0
  inequalityConstraintISE := 0
  inequalityConstraintPenalty := 0
  merit := 0

/-- Performance with all fields zero: feasible and cheaper than `cBaseline`. -/
def cGood : PerformanceIndex where
  totalCost := 0
  stateEqConstraintISE := 0
  stateInputEqConstraintISE := 0
  inequalityConstraintISE := 0
  inequalityConstraintPenalty := 0
  merit := 0

/-- Constraint violation of the concrete baseline. -/
theorem constraintViolation_cBaseline : constraintViolation cBaseline = 1 := by
  simp [constraintViolation, cBaseline]

/-- Constraint violation of the concrete trial performance. -/
theorem constraintViolation_cTrial : constraintViolation cTrial = 1 := by
  simp [constraintViolation, cTrial]

/-- Constraint violation of the high-violation performance. -/
theorem constraintViolation_cHigh : constraintViolation cHigh = 3 := by
  have h9 : (9:ℝ) + 0 + 0 = 3 ^ 2 := by norm_num
  simp only [constraintViolation, cHigh]
  rw [h9, Real.sqrt_sq (by norm_num : (0:ℝ) ≤ 3)]

/-- Constraint violation of the all-zero performance. -/
theorem constraintViolation_cGood : constraintViolation cGood = 0 := by
  simp [constraintViolation, cGood]

/-- Claim C1 counterexample: with `g_min = 1`, `g_max = 2`,
`gamma_c = 1/2`, a baseline with merit 1 and violation 1, and a trial
with merit 3/4 and violation exactly `g_min`, the specification's rule
accepts (case (a): θ ≤ g_min and the merit decreased) while the code
rejects (the boundary θ = g_min falls into the medium-violation branch,
which requires a merit decrease of at least `gamma_c · θ(baseline) = 1/2`
or a violation decrease). -/
theorem stepAccepted_ne_specAccept :
    ¬ (stepAccepted cSettings cBaseline (constraintViolation cBaseline) cTrial ↔
        specAccept cSettings cBaseline cTrial) := by
  have hb := constraintViolation_cBaseline
  have ht := constraintViolation_cTrial
  have hspec : specAccept cSettings cBaseline cTrial := by
    refine Or.inl ⟨?_, ?_⟩
    · rw [ht]; show (1:ℝ) ≤ 1; norm_num
    · show (3/4:ℝ) < 1; norm_num
  have hrej : ¬ stepAccepted cSettings cBaseline (constraintViolation cBaseline) cTrial := by
    simp only [stepAccepted, ht, hb]
    rw [if_neg (by show ¬ ((1:ℝ) > 2); norm_num),
      if_neg (by show ¬ ((1:ℝ) < 1); norm_num)]
    rintro (h | h)
    · revert h; show ¬ ((3/4:ℝ) < 1 - 1/2 * 1); norm_num
    · revert h; show ¬ ((1:ℝ) < (1 - 1/2) * 1); norm_num
  intro h
  exact hrej (h.mpr hspec)

/-- Claim C1 (amended): a trial is accepted iff either θ(P') < g_min
strictly and the merit decreases, or g_min ≤ θ(P') ≤ g_max and the merit
decreases by `gamma_c`·θ(baseline) or the violation drops below
(1 − gamma_c)·θ(baseline); a trial with θ(P') > g_max is always
rejected. -/
theorem stepAccepted_iff_amended (s : Settings) (baseline performanceNew : PerformanceIndex)
    (h : s.g_min ≤ s.g_max) :
    (stepAccepted s baseline (constraintViolation baseline) performanceNew ↔
      ((constraintViolation performanceNew < s.g_min ∧
          performanceNew.merit < baseline.merit) ∨
        (s.g_min ≤ constraintViolation performanceNew ∧
          constraintViolation performanceNew ≤ s.g_max ∧
          (performanceNew.merit < baseline.merit - s.gamma_c * constraintViolation baseline ∨
            constraintViolation performanceNew <
              (1 - s.gamma_c) * constraintViolation baseline)))) ∧
    (s.g_max < constraintViolation performanceNew →
      ¬ stepAccepted s baseline (constraintViolation baseline) performanceNew) := by
  constructor
  · by_cases h1 : constraintViolation performanceNew > s.g_max
    · simp only [stepAccepted]
      rw [if_pos h1]
      simp only [false_iff]
      rintro (⟨hlt, _⟩ | ⟨_, hle, _⟩)
      · linarith
      · linarith
    · simp only [stepAccepted]
      rw [if_neg h1]
      by_cases h2 : constraintViolation performanceNew < s.g_min
      · rw [if_pos h2]
        constructor
        · intro hm
          exact Or.inl ⟨h2, hm⟩
        · rintro (⟨_, hm⟩ | ⟨hge, _, _⟩)
          · exact hm
          · linarith
      · rw [if_neg h2]
        constructor
        · intro hm
          exact Or.inr ⟨le_of_not_lt h2, le_of_not_lt h1, hm⟩
        · rintro (⟨hlt, _⟩ | ⟨_, _, hm⟩)
          · exact absurd hlt h2
          · exact hm
  · intro hgt
    simp only [stepAccepted]
    rw [if_pos hgt]
    exact fun hfalse => hfalse

/-- Witness for the amended claim C1: at the concrete settings
(`g_min = 1 ≤ 2 = g_max`) the theorem rejects the trial whose violation
is 3 > g_max. -/
theorem stepAccepted_iff_amended_witness :
    ¬ stepAccepted cSettings cBaseline (constraintViolation cBaseline) cHigh :=
  (stepAccepted_iff_amended cSettings cBaseline cHigh
      (by show (1:ℝ) ≤ 2; norm_num)).2
    (by rw [constraintViolation_cHigh]; show (2:ℝ) < 3; norm_num)

/-- Line-search problem whose recomputed performance is always feasible
and cheaper than the baseline: the first trial is accepted. -/
def cProblem : LineSearchProblem where
  s := cSettings
  computePerf := fun _ _ => cGood
  baseline := cBaseline
  dx := []
  du := []
  x := []
  u := []

/-- Line-search problem whose recomputed performance always violates
`g_max`: every trial is rejected. -/
def cProblemHigh : LineSearchProblem where
  s := cSettings
  computePerf := fun _ _ => cHigh
  baseline := cBaseline
  dx := []
  du := []
  x := []
  u := []

/-- Norm of the empty trajectory. -/
theorem trajectoryNorm_nil : trajectoryNorm ([] : List Vec) = 0 := by
  simp [trajectoryNorm]

/-- Witness for claim C2: on the concrete problem whose first trial is
accepted, `takeStep` commits the trial trajectories and reports the
convergence disjunction of trial 0. -/
theorem takeStep_linesearch_witness :
    takeStep cProblem 1 =
      some { converged := trialBelowTol cProblem 0 ∨ trialImprovement cProblem 0,
             x := trialState cProblem 0, u := trialInput cProblem 0 } := by
  have hacc : trialAccepted cProblem 0 := by
    show stepAccepted cSettings cBaseline (constraintViolation cBaseline) cGood
    simp only [stepAccepted, constraintViolation_cGood]
    rw [if_neg (by show ¬ ((0:ℝ) > 2); norm_num), if_pos (by show (0:ℝ) < 1; norm_num)]
    show (0:ℝ) < 1
    norm_num
  exact (takeStep_linesearch cProblem 0 1 (by norm_num)
    (fun j hj => absurd hj (by omega))).1 hacc

/-- Witness for claim C10: on the concrete problem where every trial is
rejected (violation 3 > g_max) and the zero-length step is already below
tolerance, `takeStep` returns with the entry trajectories unchanged. -/
theorem takeStep_frame_witness :
    ∃ r : StepResult, takeStep cProblemHigh (0 + 1) = some r ∧
      r.x = cProblemHigh.x ∧ r.u = cProblemHigh.u := by
  have hacc : ¬ stepAccepted cSettings cBaseline (constraintViolation cBaseline) cHigh := by
    simp only [stepAccepted, constraintViolation_cHigh]
    rw [if_pos (by show (3:ℝ) > 2; norm_num)]
    exact fun hfalse => hfalse
  have hrun : takeStep cProblemHigh (0 + 1) = some { converged := True, x := [], u := [] } := by
    rw [takeStep, takeStepLoop_succ]
    simp only [cProblemHigh]
    rw [if_neg hacc, if_pos (show (1:ℝ) * trajectoryNorm [] < cSettings.deltaTol ∧
        (1:ℝ) * trajectoryNorm [] < cSettings.deltaTol by
      rw [trajectoryNorm_nil]
      constructor <;> · show (1:ℝ) * 0 < 1/1000; norm_num)]
  refine ⟨{ converged := True, x := [], u := [] }, hrun, ?_⟩
  rcases takeStep_frame cProblemHigh (0 + 1) { converged := True, x := [], u := [] } hrun with
    hsame | ⟨alpha, haccepted, _, _⟩
  · exact hsame
  · exact absurd haccepted hacc

/-! ## Performance assembly (part_002 lines 358-473)

The per-node contributions come from the transcription helpers
`multiple_shooting::setup...Node` / `multiple_shooting::compute...Performance`,
which are external to the source under verification; they enter as an
abstract function `nodePerformance : ℕ → PerformanceIndex` giving the
contribution of node `i` (stages `0..N-1` plus the terminal node `N`).
The parallel per-worker accumulation reduces to the sum over all nodes. -/

/-- Sum of the per-node performance contributions over nodes `0..N`
(the worker-local accumulations followed by the `std::accumulate`). -/
def sumNodePerformance (nodePerformance : ℕ → PerformanceIndex) (N : ℕ) : PerformanceIndex :=
  ((List.range (N + 1)).map nodePerformance).foldl PerformanceIndex.add {}

/-- Performance returned by `computePerformance` (part_002 lines
426-473): the accumulated node contributions, with the squared mismatch
between `initState` and the first state node added to
`stateEqConstraintISE`, and the merit recomputed as
`totalCost + inequalityConstraintPenalty`. -/
def computePerformanceTotal (nodePerformance : ℕ → PerformanceIndex) (N : ℕ)
    (initState : Vec) (x : List Vec) : PerformanceIndex :=
  let summed := sumNodePerformance nodePerformance N
  let withInit := { summed with
    stateEqConstraintISE :=
      summed.stateEqConstraintISE + squaredNorm (vsub initState (x.headD [])) }
  { withInit with merit := withInit.totalCost + withInit.inequalityConstraintPenalty }

/-- Performance part of the result of `setupQuadraticSubproblem`
(part_002 lines 358-424): identical accumulation, with the node
contributions produced by the linearizing transcription helpers. -/
def setupQuadraticSubproblemPerformance (nodePerformance : ℕ → PerformanceIndex) (N : ℕ)
    (initState : Vec) (x : List Vec) : PerformanceIndex :=
  let summed := sumNodePerformance nodePerformance N
  let withInit := { summed with
    stateEqConstraintISE :=
      summed.stateEqConstraintISE + squaredNorm (vsub initState (x.headD [])) }
  { withInit with merit := withInit.totalCost + withInit.inequalityConstraintPenalty }

/-- Claim C9: both `setupQuadraticSubproblem` and `computePerformance`
add the squared distance between `initState` and the first state node to
the accumulated `stateEqConstraintISE`, so the line-search constraint
violation of the result includes the initial-state mismatch term. -/
theorem performance_includes_initState_mismatch (nodePerformance : ℕ → PerformanceIndex)
    (N : ℕ) (initState : Vec) (x : List Vec) :
    (computePerformanceTotal nodePerformance N initState x).stateEqConstraintISE =
        (sumNodePerformance nodePerformance N).stateEqConstraintISE +
          squaredNorm (vsub initState (x.headD [])) ∧
      (setupQuadraticSubproblemPerformance nodePerformance N initState x).stateEqConstraintISE =
        (sumNodePerformance nodePerformance N).stateEqConstraintISE +
          squaredNorm (vsub initState (x.headD [])) ∧
      constraintViolation (computePerformanceTotal nodePerformance N initState x) =
        Real.sqrt ((sumNodePerformance nodePerformance N).stateEqConstraintISE +
          squaredNorm (vsub initState (x.headD [])) +
          (sumNodePerformance nodePerformance N).stateInputEqConstraintISE +
          (sumNodePerformance nodePerformance N).inequalityConstraintISE) :=
  ⟨rfl, rfl, rfl⟩

/-! ## QP solution extraction, `getOCPSolution` (part_002 lines 269-299) -/

/-- Return status of the HPIPM back-end. -/
inductive HpipmStatus where
  | SUCCESS : HpipmStatus
  | MAX_ITER : HpipmStatus
  | MIN_STEP : HpipmStatus
  | NAN_SOL : HpipmStatus
deriving DecidableEq

/-- Solver-level error: the runtime error thrown when the QP back-end
does not report success. -/
inductive SolverError where
  | qpFailure : SolverError
deriving DecidableEq

/-- Constraint argument handed to the QP back-end (part_002 lines
274-280): the assembled constraints exactly when a constraint provider
exists and projection is disabled, the null pointer otherwise. -/
def qpConstraintsPassed (hasConstraintProvider projectSIEC : Bool)
    (constraints : List VectorFunctionLinearApproximation) :
    Option (List VectorFunctionLinearApproximation) :=
  if hasConstraintProvider && !projectSIEC then some constraints else none

/-- Re-mapping of the reduced input step to the full input step
(part_002 lines 287-296): at stages with a live projection,
`deltaUSol[i]` becomes `dfdu·deltaUSol[i] + f + dfdx·deltaXSol[i]`;
stages with a zero-row projection keep the QP value. -/
def remapInputStep (proj : List VectorFunctionLinearApproximation)
    (deltaXSol deltaUSol : List Vec) : List Vec :=
  (List.range deltaUSol.length).map (fun i =>
    if 0 < ((proj.getD i default).f).length then
      vadd (vadd (matvec (proj.getD i default).dfdu (deltaUSol.getD i []))
          ((proj.getD i default).f))
        (matvec (proj.getD i default).dfdx (deltaXSol.getD i []))
    else deltaUSol.getD i [])

/-- The QP solve step of the SQP iteration: call the back-end with the
constraint argument of `qpConstraintsPassed`, throw on a non-success
status, then re-map the input step if projection is enabled.  The
back-end (`hpipmInterface_.resize` + `solve`) is external and enters as
the function `backendSolve`. -/
def getOCPSolution (projectSIEC hasConstraintProvider : Bool)
    (backendSolve : Option (List VectorFunctionLinearApproximation) →
      HpipmStatus × List Vec × List Vec)
    (constraints proj : List VectorFunctionLinearApproximation) :
    Except SolverError (List Vec × List Vec) :=
  let result := backendSolve (qpConstraintsPassed hasConstraintProvider projectSIEC constraints)
  if result.1 = HpipmStatus.SUCCESS then
    Except.ok (result.2.1,
      if projectSIEC then remapInputStep proj result.2.1 result.2.2 else result.2.2)
  else
    Except.error SolverError.qpFailure

/-- Reading an index below `n` out of a mapped range list. -/
theorem getD_map_range {α : Type} (f : ℕ → α) (n i : ℕ) (d : α) (h : i < n) :
    ((List.range n).map f).getD i d = f i := by
  rw [List.getD_eq_getElem _ d (by simpa using h)]
  simp

/-- Element-wise vector addition is commutative. -/
theorem vadd_comm (a b : Vec) : vadd a b = vadd b a :=
  List.zipWith_comm_of_comm _ (fun s t => add_comm s t) a b

/-- Claim C3: when projection is enabled and the back-end succeeds,
`getOCPSolution` returns the QP state step together with the re-mapped
input step, which at every stage with a live projection equals
`f + dfdu·deltaU + dfdx·deltaX` and at every stage with a zero-row
projection equals the QP input step unchanged. -/
theorem getOCPSolution_remap (hasConstraintProvider : Bool)
    (backendSolve : Option (List VectorFunctionLinearApproximation) →
      HpipmStatus × List Vec × List Vec)
    (constraints proj : List VectorFunctionLinearApproximation)
    (deltaXSol deltaUSol : List Vec)
    (hb : backendSolve (qpConstraintsPassed hasConstraintProvider true constraints) =
      (HpipmStatus.SUCCESS, deltaXSol, deltaUSol)) :
    getOCPSolution true hasConstraintProvider backendSolve constraints proj =
        Except.ok (deltaXSol, remapInputStep proj deltaXSol deltaUSol) ∧
      ∀ i, i < deltaUSol.length →
        (0 < ((proj.getD i default).f).length →
          (remapInputStep proj deltaXSol deltaUSol).getD i [] =
            vadd (vadd ((proj.getD i default).f)
                (matvec (proj.getD i default).dfdu (deltaUSol.getD i [])))
              (matvec (proj.getD i default).dfdx (deltaXSol.getD i []))) ∧
        (¬ 0 < ((proj.getD i default).f).length →
          (remapInputStep proj deltaXSol deltaUSol).getD i [] = deltaUSol.getD i []) := by
  constructor
  · simp [getOCPSolution, hb]
  · intro i hi
    constructor
    · intro hf
      rw [remapInputStep, getD_map_range _ _ _ _ hi, if_pos hf,
        vadd_comm (matvec (proj.getD i default).dfdu (deltaUSol.getD i []))
          ((proj.getD i default).f)]
    · intro hf
      rw [remapInputStep, getD_map_range _ _ _ _ hi, if_neg hf]

/-- Witness for claim C3: a one-stage problem with projection
`f = [5]`, `dfdx = [[2]]`, `dfdu = [[3]]`, state step `[7]` and reduced
input step `[11]`; the re-mapped input step is `5 + 3·11 + 2·7 = 52`. -/
theorem getOCPSolution_remap_witness :
    getOCPSolution true true
        (fun _ => (HpipmStatus.SUCCESS, [[(7:ℝ)]], [[(11:ℝ)]]))
        [] [{ f := [5], dfdx := [[2]], dfdu := [[3]] }] =
      Except.ok ([[(7:ℝ)]],
        remapInputStep [{ f := [5], dfdx := [[2]], dfdu := [[3]] }] [[(7:ℝ)]] [[(11:ℝ)]]) ∧
    (remapInputStep [{ f := [5], dfdx := [[2]], dfdu := [[3]] }] [[(7:ℝ)]] [[(11:ℝ)]]).getD 0 [] =
      vadd (vadd [5] (matvec [[3]] [11])) (matvec [[2]] [7]) := by
  have h := getOCPSolution_remap true
    (fun _ => (HpipmStatus.SUCCESS, [[(7:ℝ)]], [[(11:ℝ)]]))
    [] [{ f := [5], dfdx := [[2]], dfdu := [[3]] }] [[(7:ℝ)]] [[(11:ℝ)]] rfl
  refine ⟨h.1, ?_⟩
  have h0 := (h.2 0 (by norm_num)).1 (by simp)
  simpa using h0

/-- Claim C5: the constraint argument handed to the QP back-end is the
assembled constraint set exactly when a constraint provider exists and
projection is disabled, and the null pointer in every other case. -/
theorem qpConstraintsPassed_mode (hasConstraintProvider projectSIEC : Bool)
    (constraints : List VectorFunctionLinearApproximation) :
    (qpConstraintsPassed hasConstraintProvider projectSIEC constraints = some constraints ↔
      hasConstraintProvider = true ∧ projectSIEC = false) ∧
    (hasConstraintProvider = false ∨ projectSIEC = true →
      qpConstraintsPassed hasConstraintProvider projectSIEC constraints = none) := by
  cases hasConstraintProvider <;> cases projectSIEC <;>
    simp [qpConstraintsPassed]

/-- Witness for claim C5 at concrete flags: with a provider and
projection disabled the constraints are passed; with projection enabled
the null pointer is passed. -/
theorem qpConstraintsPassed_mode_witness :
    qpConstraintsPassed true false
        [({} : VectorFunctionLinearApproximation)] =
      some [({} : VectorFunctionLinearApproximation)] ∧
    qpConstraintsPassed true true
        [({} : VectorFunctionLinearApproximation)] = none :=
  ⟨(qpConstraintsPassed_mode true false _).1.mpr ⟨rfl, rfl⟩,
   (qpConstraintsPassed_mode true true _).2 (Or.inr rfl)⟩

/-! ## Solution construction, `setPrimalSolution` (part_002 lines 301-356) -/

/-- The controller stored in the primal solution: a time-varying linear
controller `u = uff + K·x` or a feedforward-only controller. -/
inductive ControllerM where
  | linear (uff : List Vec) (gain : List Mat) : ControllerM
  | feedforward (inputs : List Vec) : ControllerM

/-- The solver's primal solution. -/
structure PrimalSolutionM where
  timeTrajectory : List ℝ
  stateTrajectory : List Vec
  inputTrajectory : List Vec
  controller : ControllerM

/-- Gain and feedforward computed at a non-repeated stage (part_002
lines 318-330): the Riccati gain, composed with the constraint
projection when one is live at the stage, and `uff = u[i] − K·x[i]`. -/
def feedbackStage (KMatrices : List Mat) (proj : List VectorFunctionLinearApproximation)
    (x u : List Vec) (i : ℕ) : Mat × Vec :=
  let gain :=
    if 0 < ((proj.getD i default).f).length then
      matadd (proj.getD i default).dfdx
        (matmul (proj.getD i default).dfdu (KMatrices.getD i []))
    else KMatrices.getD i []
  (gain, vsub (u.getD i []) (matvec gain (x.getD i [])))

/-- Entry `i` of the feedback loop of `setPrimalSolution` (part_002
lines 313-331): PreEvent stages after the first entry repeat the
previous entry (the loop pushes one entry per index, so the accumulator
is non-empty exactly when `i > 0`); all other stages compute the stage
feedback. -/
def controllerEntry (time : List AnnotatedTime) (KMatrices : List Mat)
    (proj : List VectorFunctionLinearApproximation) (x u : List Vec) : ℕ → Mat × Vec
  | 0 => feedbackStage KMatrices proj x u 0
  | i + 1 =>
    if (time.getD (i + 1) default).event = EventType.PreEvent then
      controllerEntry time KMatrices proj x u i
    else
      feedbackStage KMatrices proj x u (i + 1)

/-- The stored feedforward trajectory: entries for stages
`0 .. |time|-2` followed by a copy of the last entry (part_002 lines
332-334). -/
def uffTrajectory (time : List AnnotatedTime) (KMatrices : List Mat)
    (proj : List VectorFunctionLinearApproximation) (x u : List Vec) : List Vec :=
  (List.range (time.length - 1)).map
      (fun i => (controllerEntry time KMatrices proj x u i).2) ++
    [(controllerEntry time KMatrices proj x u (time.length - 1 - 1)).2]

/-- The stored gain trajectory, built alongside `uffTrajectory`. -/
def gainTrajectory (time : List AnnotatedTime) (KMatrices : List Mat)
    (proj : List VectorFunctionLinearApproximation) (x u : List Vec) : List Mat :=
  (List.range (time.length - 1)).map
      (fun i => (controllerEntry time KMatrices proj x u i).1) ++
    [(controllerEntry time KMatrices proj x u (time.length - 1 - 1)).1]

/-- Entry `i` of the stored input trajectory after the PreEvent
overwrite loop (part_002 lines 341-347): a PreEvent stage `i > 0` takes
the (already overwritten) previous entry, every other index keeps the
padded input `u ++ [u.back()]`. -/
def finalInputEntry (time : List AnnotatedTime) (uPadded : List Vec) : ℕ → Vec
  | 0 => uPadded.getD 0 []
  | i + 1 =>
    if (time.getD (i + 1) default).event = EventType.PreEvent then
      finalInputEntry time uPadded i
    else
      uPadded.getD (i + 1) []

/-- The stored input trajectory: `u` with the last input repeated, then
the PreEvent overwrites applied. -/
def inputTrajectoryOf (time : List AnnotatedTime) (u : List Vec) : List Vec :=
  (List.range (u.length + 1)).map (finalInputEntry time (u ++ [u.getLastD []]))

/-- The full `setPrimalSolution`: nominal trajectories, PreEvent input
repair, and either the linear feedback controller or the feedforward
controller over the same time base. -/
def setPrimalSolution (useFeedbackPolicy : Bool) (time : List AnnotatedTime)
    (x u : List Vec) (KMatrices : List Mat)
    (proj : List VectorFunctionLinearApproximation) : PrimalSolutionM where
  timeTrajectory := time.map AnnotatedTime.time
  stateTrajectory := x
  inputTrajectory := inputTrajectoryOf time u
  controller :=
    if useFeedbackPolicy then
      ControllerM.linear (uffTrajectory time KMatrices proj x u)
        (gainTrajectory time KMatrices proj x u)
    else
      ControllerM.feedforward (inputTrajectoryOf time u)

/-- Reading an index below `n` out of a mapped range list with one
appended element. -/
theorem getD_map_range_append {α : Type} (f : ℕ → α) (z : α) (n i : ℕ) (d : α) (h : i < n) :
    ((List.range n).map f ++ [z]).getD i d = f i := by
  rw [List.getD_eq_getElem _ d (by simp; omega)]
  rw [List.getElem_append_left (by simpa using h)]
  simp

/-- Reading the appended last element of a mapped range list. -/
theorem getD_map_range_append_last {α : Type} (f : ℕ → α) (z : α) (n : ℕ) (d : α) :
    ((List.range n).map f ++ [z]).getD n d = z := by
  rw [List.getD_eq_getElem _ d (by simp)]
  rw [List.getElem_append_right (by simp)]
  simp

/-- Adding back a subtracted vector of matching length recovers the
original vector. -/
theorem vadd_vsub_cancel : ∀ (a b : Vec), b.length = a.length → vadd (vsub a b) b = a
  | [], [], _ => rfl
  | [], t :: b, h => by simp at h
  | s :: a, [], h => by simp at h
  | s :: a, t :: b, h => by
    simp only [vadd, vsub, List.zipWith_cons_cons]
    have h1 : s - t + t = s := by ring
    rw [h1]
    have h2 := vadd_vsub_cancel a b (by simpa using h)
    simp only [vadd, vsub] at h2
    rw [h2]

/-- Claim C4: with the feedback policy enabled, the stored controller is
linear with one entry per time node; at every non-PreEvent stage the
gain is the Riccati gain, composed with the projection when one is live,
the feedforward is `u[i] − K·x[i]`, and evaluating `uff + K·x` at the
nominal state recovers the nominal input; every PreEvent stage after the
first repeats the previous entry, and the last entry duplicates its
predecessor. -/
theorem setPrimalSolution_feedback (time : List AnnotatedTime) (x u : List Vec)
    (KMatrices : List Mat) (proj : List VectorFunctionLinearApproximation)
    (h2 : 2 ≤ time.length) :
    ∃ uffL gainL,
      (setPrimalSolution true time x u KMatrices proj).controller =
          ControllerM.linear uffL gainL ∧
        uffL.length = time.length ∧ gainL.length = time.length ∧
        (∀ i, i + 1 < time.length → (time.getD i default).event ≠ EventType.PreEvent →
          gainL.getD i [] =
              (if 0 < ((proj.getD i default).f).length then
                matadd (proj.getD i default).dfdx
                  (matmul (proj.getD i default).dfdu (KMatrices.getD i []))
              else KMatrices.getD i []) ∧
            uffL.getD i [] = vsub (u.getD i []) (matvec (gainL.getD i []) (x.getD i [])) ∧
            ((matvec (gainL.getD i []) (x.getD i [])).length = (u.getD i []).length →
              vadd (uffL.getD i []) (matvec (gainL.getD i []) (x.getD i [])) = u.getD i [])) ∧
        (∀ i, 0 < i → i + 1 < time.length →
          (time.getD i default).event = EventType.PreEvent →
          uffL.getD i [] = uffL.getD (i - 1) [] ∧
            gainL.getD i [] = gainL.getD (i - 1) []) ∧
        (uffL.getD (time.length - 1) [] = uffL.getD (time.length - 2) [] ∧
          gainL.getD (time.length - 1) [] = gainL.getD (time.length - 2) []) := by
  refine ⟨uffTrajectory time KMatrices proj x u, gainTrajectory time KMatrices proj x u,
    by simp [setPrimalSolution], ?_, ?_, ?_, ?_, ?_⟩
  · simp only [uffTrajectory, List.length_append, List.length_map, List.length_range,
      List.length_singleton]
    omega
  · simp only [gainTrajectory, List.length_append, List.length_map, List.length_range,
      List.length_singleton]
    omega
  · intro i hi hne
    have hin : i < time.length - 1 := by omega
    have hentry : controllerEntry time KMatrices proj x u i = feedbackStage KMatrices proj x u i := by
      cases i with
      | zero => rfl
      | succ j =>
        simp only [controllerEntry]
        rw [if_neg hne]
    have hgain : (gainTrajectory time KMatrices proj x u).getD i [] =
        (feedbackStage KMatrices proj x u i).1 := by
      rw [gainTrajectory, getD_map_range_append _ _ _ _ _ hin, hentry]
    have huff : (uffTrajectory time KMatrices proj x u).getD i [] =
        (feedbackStage KMatrices proj x u i).2 := by
      rw [uffTrajectory, getD_map_range_append _ _ _ _ _ hin, hentry]
    refine ⟨by rw [hgain]; rfl, by rw [huff, hgain]; rfl, ?_⟩
    intro hlen
    rw [hgain] at hlen
    rw [huff, hgain]
    exact vadd_vsub_cancel _ _ hlen
  · intro i hpos hi hpre
    have hin : i < time.length - 1 := by omega
    obtain ⟨j, rfl⟩ : ∃ j, i = j + 1 := ⟨i - 1, by omega⟩
    have hjn : j < time.length - 1 := by omega
    have hstep : controllerEntry time KMatrices proj x u (j + 1) =
        controllerEntry time KMatrices proj x u j := by
      simp only [controllerEntry]
      rw [if_pos hpre]
    simp only [Nat.add_sub_cancel]
    constructor
    · rw [uffTrajectory, getD_map_range_append _ _ _ _ _ hin,
        getD_map_range_append _ _ _ _ _ hjn, hstep]
    · rw [gainTrajectory, getD_map_range_append _ _ _ _ _ hin,
        getD_map_range_append _ _ _ _ _ hjn, hstep]
  · have he : time.length - 2 = time.length - 1 - 1 := by omega
    have hn : time.length - 1 - 1 < time.length - 1 := by omega
    constructor
    · rw [he, uffTrajectory, getD_map_range_append_last, getD_map_range_append _ _ _ _ _ hn]
    · rw [he, gainTrajectory, getD_map_range_append_last, getD_map_range_append _ _ _ _ _ hn]

/-- Witness for claim C4: a two-node grid with a single stage,
`x = [[1],[4]]`, `u = [[2]]`, Riccati gain `[[3]]` and no projection.
The theorem yields the linear controller with one entry per node. -/
theorem setPrimalSolution_feedback_witness :
    ∃ uffL gainL,
      (setPrimalSolution true
          [{ time := 0, event := EventType.Interior },
           { time := 1, event := EventType.Interior }]
          [[1], [4]] [[2]] [[[3]]] [{}]).controller = ControllerM.linear uffL gainL ∧
        uffL.length = 2 ∧ gainL.length = 2 := by
  obtain ⟨uffL, gainL, hc, hl1, hl2, _⟩ :=
    setPrimalSolution_feedback
      [{ time := 0, event := EventType.Interior },
       { time := 1, event := EventType.Interior }]
      [[1], [4]] [[2]] [[[3]]] [{}] (by simp)
  exact ⟨uffL, gainL, hc, by simpa using hl1, by simpa using hl2⟩

/-- Claim C8: the stored trajectories all have the length of the time
grid, and at every PreEvent stage `i > 0` the stored input equals the
previous stage's stored input. -/
theorem setPrimalSolution_inputTrajectory (useFeedbackPolicy : Bool)
    (time : List AnnotatedTime) (x u : List Vec) (KMatrices : List Mat)
    (proj : List VectorFunctionLinearApproximation)
    (hx : x.length = time.length) (hu : u.length + 1 = time.length) :
    (setPrimalSolution useFeedbackPolicy time x u KMatrices proj).timeTrajectory.length =
        time.length ∧
      (setPrimalSolution useFeedbackPolicy time x u KMatrices proj).stateTrajectory.length =
        time.length ∧
      (setPrimalSolution useFeedbackPolicy time x u KMatrices proj).inputTrajectory.length =
        time.length ∧
      ∀ i, 0 < i → i < time.length →
        (time.getD i default).event = EventType.PreEvent →
        (setPrimalSolution useFeedbackPolicy time x u KMatrices proj).inputTrajectory.getD i [] =
          (setPrimalSolution useFeedbackPolicy time x u KMatrices proj).inputTrajectory.getD
            (i - 1) [] := by
  refine ⟨by simp [setPrimalSolution], by simpa [setPrimalSolution] using hx,
    by simp [setPrimalSolution, inputTrajectoryOf]; omega, ?_⟩
  intro i hpos hi hpre
  obtain ⟨j, rfl⟩ : ∃ j, i = j + 1 := ⟨i - 1, by omega⟩
  have hjn : j < u.length + 1 := by omega
  have hin : j + 1 < u.length + 1 := by omega
  show (inputTrajectoryOf time u).getD (j + 1) [] = (inputTrajectoryOf time u).getD (j + 1 - 1) []
  simp only [Nat.add_sub_cancel]
  rw [inputTrajectoryOf, getD_map_range _ _ _ _ hin, getD_map_range _ _ _ _ hjn]
  simp only [finalInputEntry]
  rw [if_pos hpre]

/-- Witness for claim C8: a three-node grid with a PreEvent at node 1;
the stored input at node 1 equals the stored input at node 0. -/
theorem setPrimalSolution_inputTrajectory_witness :
    (setPrimalSolution false
        [{ time := 0, event := EventType.Interior },
         { time := 1, event := EventType.PreEvent },
         { time := 1, event := EventType.Interior }]
        [[1], [2], [3]] [[5], [6]] [] []).inputTrajectory.getD 1 [] =
      (setPrimalSolution false
        [{ time := 0, event := EventType.Interior },
         { time := 1, event := EventType.PreEvent },
         { time := 1, event := EventType.Interior }]
        [[1], [2], [3]] [[5], [6]] [] []).inputTrajectory.getD 0 [] := by
  have h :=
    setPrimalSolution_inputTrajectory false
      [{ time := 0, event := EventType.Interior },
       { time := 1, event := EventType.PreEvent },
       { time := 1, event := EventType.Interior }]
      [[1], [2], [3]] [[5], [6]] [] [] (by simp) (by simp)
  simpa using h.2.2.2 1 (by omega) (by simp) (by simp)

/-! ## State initialization (part_002 lines 252-267) -/

/-- The state trajectory initialization of `initializeStateTrajectory`.
Modelled from the spec: `LinearInterpolation::interpolate` over the
previous primal solution and the per-node `getInterpolationTime` helper
are repository code outside the source under verification; they enter as
the abstract parameters `interpolate` and `interpolationTimeOf`.  On the
first call every node is `initState`; afterwards node 0 is `initState`
and nodes `1..N` interpolate the previous state trajectory at the new
node times. -/
def initializeStateTrajectory (totalNumIterations : ℕ) (initState : Vec)
    (interpolate : ℝ → List ℝ → List Vec → Vec)
    (interpolationTimeOf : AnnotatedTime → ℝ)
    (prevTimeTrajectory : List ℝ) (prevStateTrajectory : List Vec)
    (timeDiscretization : List AnnotatedTime) : List Vec :=
  if totalNumIterations = 0 then
    List.replicate timeDiscretization.length initState
  else
    initState :: (List.range (timeDiscretization.length - 1)).map (fun j =>
      interpolate (interpolationTimeOf (timeDiscretization.getD (j + 1) default))
        prevTimeTrajectory prevStateTrajectory)

/-- Claim C7: on the very first call every node of the returned state
trajectory is `initState`; on subsequent calls node 0 is `initState` and
every later node is the interpolation of the previous primal state
trajectory at that node's interpolation time. -/
theorem initializeStateTrajectory_spec (totalNumIterations : ℕ) (initState : Vec)
    (interpolate : ℝ → List ℝ → List Vec → Vec)
    (interpolationTimeOf : AnnotatedTime → ℝ)
    (prevTimeTrajectory : List ℝ) (prevStateTrajectory : List Vec)
    (timeDiscretization : List AnnotatedTime) :
    (totalNumIterations = 0 →
      (initializeStateTrajectory totalNumIterations initState interpolate interpolationTimeOf
            prevTimeTrajectory prevStateTrajectory timeDiscretization).length =
          timeDiscretization.length ∧
        ∀ i, i < timeDiscretization.length →
          (initializeStateTrajectory totalNumIterations initState interpolate interpolationTimeOf
              prevTimeTrajectory prevStateTrajectory timeDiscretization).getD i [] =
            initState) ∧
    (0 < totalNumIterations →
      (initializeStateTrajectory totalNumIterations initState interpolate interpolationTimeOf
            prevTimeTrajectory prevStateTrajectory timeDiscretization).getD 0 [] = initState ∧
        ∀ i, 1 ≤ i → i < timeDiscretization.length →
          (initializeStateTrajectory totalNumIterations initState interpolate interpolationTimeOf
              prevTimeTrajectory prevStateTrajectory timeDiscretization).getD i [] =
            interpolate (interpolationTimeOf (timeDiscretization.getD i default))
              prevTimeTrajectory prevStateTrajectory) := by
  constructor
  · intro h0
    rw [initializeStateTrajectory, if_pos h0]
    refine ⟨List.length_replicate _ _, ?_⟩
    intro i hi
    rw [List.getD_eq_getElem _ _ (by simpa using hi)]
    exact List.getElem_replicate _ _
  · intro hpos
    rw [initializeStateTrajectory, if_neg (by omega)]
    refine ⟨rfl, ?_⟩
    intro i h1 hi
    obtain ⟨j, rfl⟩ : ∃ j, i = j + 1 := ⟨i - 1, by omega⟩
    show ((List.range (timeDiscretization.length - 1)).map _).getD j [] = _
    rw [getD_map_range _ _ _ _ (by omega)]

/-- Witness for claim C7: a two-node grid; on the first call both nodes
are the initial state, and after one iteration node 1 comes from the
interpolation function. -/
theorem initializeStateTrajectory_spec_witness :
    (initializeStateTrajectory 0 [5] (fun _ _ _ => [9]) (fun a => a.time) [] []
        [{ time := 0, event := EventType.Interior },
         { time := 1, event := EventType.Interior }]).getD 1 [] = [5] ∧
    (initializeStateTrajectory 1 [5] (fun _ _ _ => [9]) (fun a => a.time) [] []
        [{ time := 0, event := EventType.Interior },
         { time := 1, event := EventType.Interior }]).getD 1 [] = [9] := by
  constructor
  · exact ((initializeStateTrajectory_spec 0 [5] (fun _ _ _ => [9]) (fun a => a.time) [] []
      [{ time := 0, event := EventType.Interior },
       { time := 1, event := EventType.Interior }]).1 rfl).2 1 (by simp)
  · exact ((initializeStateTrajectory_spec 1 [5] (fun _ _ _ => [9]) (fun a => a.time) [] []
      [{ time := 0, event := EventType.Interior },
       { time := 1, event := EventType.Interior }]).2 (by omega)).2 1 (by omega) (by simp)

/-! ## The SQP outer loop, `runImpl` (part_002 lines 142-203)

The per-iteration collaborators (the quadratic subproblem assembly, the
HPIPM back-end, and the line search) enter as oracle functions of the
current trajectories; `getOCPSolution` with its status check and throw
is the concrete function defined above. -/

/-- The solver member state observable across a `run` call. -/
structure SolverState where
  primalSolution : Option PrimalSolutionM
  performanceIndeces : List PerformanceIndex
  totalNumIterations : ℕ

/-- The SQP iteration loop (part_002 lines 168-192): each iteration
appends the subproblem performance to the log, solves the QP (which
throws on a non-success back-end status), runs the line search, counts
the iteration, and stops on convergence or after `n` iterations.  The
result carries the final log, iteration count, and either the final
trajectories or the propagated error. -/
def runSqpIterations (setup : List Vec × List Vec → PerformanceIndex)
    (backendSolve : List Vec × List Vec →
      Option (List VectorFunctionLinearApproximation) → HpipmStatus × List Vec × List Vec)
    (projectSIEC hasConstraintProvider : Bool)
    (constraints : List VectorFunctionLinearApproximation)
    (projOf : List Vec × List Vec → List VectorFunctionLinearApproximation)
    (lineSearch : List Vec × List Vec → List Vec × List Vec →
      Bool × (List Vec × List Vec)) :
    ℕ → List Vec × List Vec → List PerformanceIndex → ℕ →
      List PerformanceIndex × ℕ × Except SolverError (List Vec × List Vec)
  | 0, xu, log, iters => (log, iters, Except.ok xu)
  | n + 1, xu, log, iters =>
    match getOCPSolution projectSIEC hasConstraintProvider (backendSolve xu) constraints
        (projOf xu) with
    | Except.error e => (log ++ [setup xu], iters, Except.error e)
    | Except.ok d =>
      let r := lineSearch xu d
      if r.1 then (log ++ [setup xu], iters + 1, Except.ok r.2)
      else
        runSqpIterations setup backendSolve projectSIEC hasConstraintProvider constraints
          projOf lineSearch n r.2 (log ++ [setup xu]) (iters + 1)

/-- The full `runImpl`: clear the log, run the SQP loop, and build the
primal solution only when no error escaped the loop; on an error the
stored primal solution is left as it was while the log and the iteration
counter keep the values accumulated before the failure. -/
def runImpl (setup : List Vec × List Vec → PerformanceIndex)
    (backendSolve : List Vec × List Vec →
      Option (List VectorFunctionLinearApproximation) → HpipmStatus × List Vec × List Vec)
    (projectSIEC hasConstraintProvider : Bool)
    (constraints : List VectorFunctionLinearApproximation)
    (projOf : List Vec × List Vec → List VectorFunctionLinearApproximation)
    (lineSearch : List Vec × List Vec → List Vec × List Vec →
      Bool × (List Vec × List Vec))
    (sqpIteration : ℕ) (xu0 : List Vec × List Vec)
    (computePrimal : List Vec × List Vec → PrimalSolutionM)
    (s0 : SolverState) : SolverState × Option SolverError :=
  let r := runSqpIterations setup backendSolve projectSIEC hasConstraintProvider constraints
    projOf lineSearch sqpIteration xu0 [] s0.totalNumIterations
  match r.2.2 with
  | Except.error e =>
    ({ primalSolution := s0.primalSolution, performanceIndeces := r.1,
       totalNumIterations := r.2.1 }, some e)
  | Except.ok xu =>
    ({ primalSolution := some (computePrimal xu), performanceIndeces := r.1,
       totalNumIterations := r.2.1 }, none)

/-- Intermediate lemma: when the SQP loop ends in an error, the log is
the entry log extended by one entry per iteration reached (at least one,
at most the iteration budget), and some trajectory made the QP back-end
report a non-success status. -/
theorem runSqpIterations_error (setup : List Vec × List Vec → PerformanceIndex)
    (backendSolve : List Vec × List Vec →
      Option (List VectorFunctionLinearApproximation) → HpipmStatus × List Vec × List Vec)
    (projectSIEC hasConstraintProvider : Bool)
    (constraints : List VectorFunctionLinearApproximation)
    (projOf : List Vec × List Vec → List VectorFunctionLinearApproximation)
    (lineSearch : List Vec × List Vec → List Vec × List Vec →
      Bool × (List Vec × List Vec)) :
    ∀ (n : ℕ) (xu : List Vec × List Vec) (log : List PerformanceIndex) (iters : ℕ)
      (e : SolverError),
      (runSqpIterations setup backendSolve projectSIEC hasConstraintProvider constraints
          projOf lineSearch n xu log iters).2.2 = Except.error e →
      ∃ tail, tail ≠ [] ∧ tail.length ≤ n ∧
        (runSqpIterations setup backendSolve projectSIEC hasConstraintProvider constraints
            projOf lineSearch n xu log iters).1 = log ++ tail ∧
        ∃ xuf, (backendSolve xuf
            (qpConstraintsPassed hasConstraintProvider projectSIEC constraints)).1 ≠
          HpipmStatus.SUCCESS := by
  intro n
  induction n with
  | zero =>
    intro xu log iters e h
    simp [runSqpIterations] at h
  | succ n ih =>
    intro xu log iters e h
    rcases hqp : getOCPSolution projectSIEC hasConstraintProvider (backendSolve xu)
        constraints (projOf xu) with e2 | d
    · refine ⟨[setup xu], by simp, by simp, ?_, ⟨xu, ?_⟩⟩
      · simp only [runSqpIterations]
        rw [hqp]
      · intro hs
        rw [getOCPSolution, if_pos hs] at hqp
        exact Except.noConfusion hqp
    · have heq : runSqpIterations setup backendSolve projectSIEC hasConstraintProvider
            constraints projOf lineSearch (n + 1) xu log iters =
          if (lineSearch xu d).1 = true then
            (log ++ [setup xu], iters + 1, Except.ok (lineSearch xu d).2)
          else
            runSqpIterations setup backendSolve projectSIEC hasConstraintProvider constraints
              projOf lineSearch n (lineSearch xu d).2 (log ++ [setup xu]) (iters + 1) := by
        simp only [runSqpIterations]
        rw [hqp]
      rw [heq] at h ⊢
      by_cases hconv : (lineSearch xu d).1 = true
      · rw [if_pos hconv] at h
        simp at h
      · rw [if_neg hconv] at h ⊢
        obtain ⟨tail, hne, hlen, heq, hex⟩ := ih (lineSearch xu d).2 (log ++ [setup xu])
          (iters + 1) e h
        refine ⟨[setup xu] ++ tail, by simp, by simpa using Nat.succ_le_succ hlen, ?_, hex⟩
        rw [heq, List.append_assoc]

/-- Claim C6: a non-success back-end status makes the current iteration
end in the QP-failure error (no retry and no further iterations); and if
a `run` ends with an error, the stored primal solution is exactly the
one from before the run, the iteration log is non-empty (the entries
appended before the failure remain) and no longer than the iteration
budget, and some trajectory made the QP back-end report a non-success
status. -/
theorem runImpl_qpFailure (setup : List Vec × List Vec → PerformanceIndex)
    (backendSolve : List Vec × List Vec →
      Option (List VectorFunctionLinearApproximation) → HpipmStatus × List Vec × List Vec)
    (projectSIEC hasConstraintProvider : Bool)
    (constraints : List VectorFunctionLinearApproximation)
    (projOf : List Vec × List Vec → List VectorFunctionLinearApproximation)
    (lineSearch : List Vec × List Vec → List Vec × List Vec →
      Bool × (List Vec × List Vec))
    (sqpIteration : ℕ) (xu0 : List Vec × List Vec)
    (computePrimal : List Vec × List Vec → PrimalSolutionM)
    (s0 : SolverState) :
    (∀ (n : ℕ) (xu : List Vec × List Vec) (log : List PerformanceIndex) (iters : ℕ),
      (backendSolve xu (qpConstraintsPassed hasConstraintProvider projectSIEC constraints)).1 ≠
          HpipmStatus.SUCCESS →
        (runSqpIterations setup backendSolve projectSIEC hasConstraintProvider constraints
            projOf lineSearch (n + 1) xu log iters).2.2 =
          Except.error SolverError.qpFailure) ∧
    ∀ e, (runImpl setup backendSolve projectSIEC hasConstraintProvider constraints projOf
        lineSearch sqpIteration xu0 computePrimal s0).2 = some e →
      (runImpl setup backendSolve projectSIEC hasConstraintProvider constraints projOf
            lineSearch sqpIteration xu0 computePrimal s0).1.primalSolution =
          s0.primalSolution ∧
        (runImpl setup backendSolve projectSIEC hasConstraintProvider constraints projOf
            lineSearch sqpIteration xu0 computePrimal s0).1.performanceIndeces ≠ [] ∧
        (runImpl setup backendSolve projectSIEC hasConstraintProvider constraints projOf
            lineSearch sqpIteration xu0 computePrimal s0).1.performanceIndeces.length ≤
          sqpIteration ∧
        ∃ xuf, (backendSolve xuf
            (qpConstraintsPassed hasConstraintProvider projectSIEC constraints)).1 ≠
          HpipmStatus.SUCCESS := by
  constructor
  · intro n xu log iters hst
    have hqp : getOCPSolution projectSIEC hasConstraintProvider (backendSolve xu) constraints
        (projOf xu) = Except.error SolverError.qpFailure := by
      rw [getOCPSolution, if_neg hst]
    simp only [runSqpIterations]
    rw [hqp]
  intro e h
  rcases hr : (runSqpIterations setup backendSolve projectSIEC hasConstraintProvider
      constraints projOf lineSearch sqpIteration xu0 [] s0.totalNumIterations).2.2 with e2 | xu
  · obtain ⟨tail, hne, hlen, heq, hex⟩ := runSqpIterations_error setup backendSolve
      projectSIEC hasConstraintProvider constraints projOf lineSearch sqpIteration xu0 []
      s0.totalNumIterations e2 hr
    simp only [runImpl]
    rw [hr]
    refine ⟨rfl, ?_, ?_, hex⟩
    · rw [heq]
      simpa using hne
    · rw [heq]
      simpa using hlen
  · exfalso
    simp only [runImpl] at h
    rw [hr] at h
    exact Option.noConfusion h

/-- Witness for claim C6: with a back-end that always reports
`MAX_ITER`, a one-iteration run fails, keeps the prior (empty) primal
solution, and logs exactly the failing iteration's performance. -/
theorem runImpl_qpFailure_witness :
    (runImpl (fun _ => cGood) (fun _ _ => (HpipmStatus.MAX_ITER, [], [])) false false []
          (fun _ => []) (fun xu _ => (false, xu)) 1 ([], [])
          (fun _ => { timeTrajectory := [], stateTrajectory := [], inputTrajectory := [],
                      controller := ControllerM.feedforward [] })
          { primalSolution := none, performanceIndeces := [], totalNumIterations := 0 }).1.primalSolution =
        none ∧
      (runImpl (fun _ => cGood) (fun _ _ => (HpipmStatus.MAX_ITER, [], [])) false false []
          (fun _ => []) (fun xu _ => (false, xu)) 1 ([], [])
          (fun _ => { timeTrajectory := [], stateTrajectory := [], inputTrajectory := [],
                      controller := ControllerM.feedforward [] })
          { primalSolution := none, performanceIndeces := [], totalNumIterations := 0 }).1.performanceIndeces ≠
        [] := by
  have h := (runImpl_qpFailure (fun _ => cGood) (fun _ _ => (HpipmStatus.MAX_ITER, [], []))
    false false [] (fun _ => []) (fun xu _ => (false, xu)) 1 ([], [])
    (fun _ => { timeTrajectory := [], stateTrajectory := [], inputTrajectory := [],
                controller := ControllerM.feedforward [] })
    { primalSolution := none, performanceIndeces := [], totalNumIterations := 0 }).2
    SolverError.qpFailure rfl
  exact ⟨h.1, h.2.1⟩

end

end OCS2
